import Mathlib

/-!
Verification of the real-time timbral and harmonic analysis engine of
`timbre-space-eq` (`src/lib/audio-store.ts`).

The engine's per-frame routines are shallowly embedded here:
* spectral features (`calculateSpectralCentroid`, `calculateSpectralRolloff`,
  `calculateRoughness`, `calculateZeroCrossingRate`);
* chord-history pruning, the 800ms quorum stabilizer and the key/degree
  helpers (`pruneChordHist`, `quorumSelect`, `detectKey`, `getChordDegree`);
* the Markov transition model and its predictability score
  (`bumpOuter`, `computePredictability`, `recordTransition`);
* the peak-event ("dynamic particle") lifecycle (`updateParticlesFrame`);
* the bounded analysis-history recorder (`recordAnalysisHistory`);
* the store-level reset on file load (`handleCanPlay`) and `seekTo`.

JavaScript `number` arithmetic is modelled over `ℚ` (no NaN/Infinity inputs
are considered), `Uint8Array` buffers as `List ℕ`, and millisecond clocks
as `ℤ`.  JS `Map`s are association lists in insertion order, matching the
iteration order of `Map.prototype.entries`.
-/

/-- Spectral centroid, from `calculateSpectralCentroid`: one pass accumulating
`weightedSum` and `sum`; bin frequency is `i * sampleRate / (2 * N)`;
returns `weightedSum / sum` when `sum > 0` and `0` otherwise. -/
def calculateSpectralCentroid (freq : List ℕ) (sr : ℚ) : ℚ :=
  let n : ℚ := (freq.length : ℚ)
  let acc := freq.enum.foldl
    (fun (a : ℚ × ℚ) e =>
      (a.1 + ((e.1 : ℚ) * sr) / (2 * n) * (e.2 : ℚ), a.2 + (e.2 : ℚ)))
    (0, 0)
  if 0 < acc.2 then acc.1 / acc.2 else 0

/-- The scan loop of `calculateSpectralRolloff`: walk the bins accumulating
energy; return the frequency of the first bin where the cumulative energy
reaches the target, `sampleRate / 2` if the list is exhausted. -/
def rolloffLoop (sr n target : ℚ) : List ℕ → ℕ → ℚ → ℚ
  | [], _, _ => sr / 2
  | v :: rest, i, cum =>
    let cum2 := cum + (v : ℚ)
    if target ≤ cum2 then ((i : ℚ) * sr) / (2 * n)
    else rolloffLoop sr n target rest (i + 1) cum2

/-- Spectral rolloff, from `calculateSpectralRolloff` (default threshold
`0.85`): first bin whose cumulative energy reaches `0.85 * total`. -/
def calculateSpectralRolloff (freq : List ℕ) (sr : ℚ) : ℚ :=
  let total : ℚ := ((freq.sum : ℕ) : ℚ)
  rolloffLoop sr (freq.length : ℚ) (total * (85 / 100)) freq 0 0

/-- Sum of absolute successive differences, the loop of `calculateRoughness`. -/
def sumAbsDiff : List ℕ → ℕ
  | [] => 0
  | [_] => 0
  | a :: b :: rest => (max a b - min a b) + sumAbsDiff (b :: rest)

/-- Roughness, from `calculateRoughness`: mean absolute successive-bin
magnitude difference (sum divided by the buffer length). -/
def calculateRoughness (freq : List ℕ) : ℚ :=
  ((sumAbsDiff freq : ℕ) : ℚ) / (freq.length : ℚ)

/-- One sign-change test of `calculateZeroCrossingRate`: with
`prev = a - 128` and `curr = b - 128`, the code counts
`(prev >= 0 && curr < 0) || (prev < 0 && curr >= 0)`. -/
def isCross (a b : ℕ) : Bool :=
  decide ((128 ≤ a ∧ b < 128) ∨ (a < 128 ∧ 128 ≤ b))

/-- The crossing-count loop of `calculateZeroCrossingRate`. -/
def countCrossings : List ℕ → ℕ
  | [] => 0
  | [_] => 0
  | a :: b :: rest => (if isCross a b then 1 else 0) + countCrossings (b :: rest)

/-- Zero-crossing rate, from `calculateZeroCrossingRate`: `0` for buffers of
fewer than two samples, otherwise crossings divided by the buffer length. -/
def calculateZeroCrossingRate (td : List ℕ) : ℚ :=
  if td.length < 2 then 0
  else ((countCrossings td : ℕ) : ℚ) / (td.length : ℚ)

/-- A waveform buffer that strictly alternates above and below the center
value 128 on every successive pair of samples. -/
def altAround128 (a b : ℕ) : Prop :=
  (128 < a ∧ b < 128) ∨ (a < 128 ∧ 128 < b)

instance : DecidableRel altAround128 := fun a b =>
  inferInstanceAs (Decidable ((128 < a ∧ b < 128) ∨ (a < 128 ∧ 128 < b)))

theorem sumAbsDiff_replicate_zero : ∀ n : ℕ, sumAbsDiff (List.replicate n 0) = 0 := by
  intro n
  induction n with
  | zero => rfl
  | succ m ih =>
    cases m with
    | zero => rfl
    | succ k =>
      have h2 : List.replicate (k + 2) (0 : ℕ) = 0 :: 0 :: List.replicate k 0 := by
        simp [List.replicate_succ]
      have h1 : List.replicate (k + 1) (0 : ℕ) = 0 :: List.replicate k 0 := by
        simp [List.replicate_succ]
      rw [h2, sumAbsDiff]
      rw [h1] at ih
      simpa using ih

theorem centroid_fold_zero (sr : ℚ) (n : ℚ) :
    ∀ (l : List (ℕ × ℕ)) (a : ℚ × ℚ), (∀ e ∈ l, e.2 = 0) →
      l.foldl (fun (a : ℚ × ℚ) e =>
        (a.1 + ((e.1 : ℚ) * sr) / (2 * n) * (e.2 : ℚ), a.2 + (e.2 : ℚ))) a = a := by
  intro l
  induction l with
  | nil => intro a _; rfl
  | cons x xs ih =>
    intro a h
    have hx : x.2 = 0 := h x (List.mem_cons_self x xs)
    have hxs : ∀ e ∈ xs, e.2 = 0 := fun e he => h e (List.mem_cons_of_mem x he)
    simp only [List.foldl_cons, hx]
    rw [show (a.1 + ((x.1 : ℚ) * sr) / (2 * n) * ((0 : ℕ) : ℚ), a.2 + ((0 : ℕ) : ℚ)) = a by
      simp]
    exact ih a hxs

theorem calculateSpectralCentroid_replicate_zero (n : ℕ) (sr : ℚ) :
    calculateSpectralCentroid (List.replicate n 0) sr = 0 := by
  have hmem : ∀ e ∈ (List.replicate n (0 : ℕ)).enum, e.2 = 0 := by
    intro e he
    have h2 : e.2 ∈ (List.replicate n (0 : ℕ)).enum.map Prod.snd :=
      List.mem_map_of_mem Prod.snd he
    rw [List.enum_map_snd] at h2
    exact List.eq_of_mem_replicate h2
  have h := centroid_fold_zero sr ((List.replicate n (0 : ℕ)).length : ℚ)
    (List.replicate n (0 : ℕ)).enum (0, 0) hmem
  unfold calculateSpectralCentroid
  simp only [h]
  norm_num

theorem calculateSpectralRolloff_replicate_zero (n : ℕ) (hn : 1 ≤ n) (sr : ℚ) :
    calculateSpectralRolloff (List.replicate n 0) sr = 0 := by
  obtain ⟨m, rfl⟩ : ∃ m, n = m + 1 := ⟨n - 1, by omega⟩
  unfold calculateSpectralRolloff
  rw [List.replicate_succ]
  rw [rolloffLoop]
  simp

theorem calculateRoughness_replicate_zero (n : ℕ) :
    calculateRoughness (List.replicate n 0) = 0 := by
  unfold calculateRoughness
  rw [sumAbsDiff_replicate_zero]
  simp

theorem countCrossings_chain : ∀ (a : ℕ) (rest : List ℕ),
    List.Chain' altAround128 (a :: rest) → countCrossings (a :: rest) = rest.length := by
  intro a rest
  induction rest generalizing a with
  | nil => intro _; rfl
  | cons b rest' ih =>
    intro h
    rw [List.chain'_cons] at h
    have hab : isCross a b = true := by
      rcases h.1 with ⟨h1, h2⟩ | ⟨h1, h2⟩
      · exact decide_eq_true (Or.inl ⟨Nat.le_of_lt h1, h2⟩)
      · exact decide_eq_true (Or.inr ⟨h1, Nat.le_of_lt h2⟩)
    rw [countCrossings, hab, ih b h.2]
    simp only [if_true, List.length_cons]
    omega

/-- The buffer `[200, 50]` strictly alternates around the center 128. -/
theorem alt_200_50 : List.Chain' altAround128 [200, 50] := by
  rw [List.chain'_cons]
  exact ⟨Or.inl ⟨by norm_num, by norm_num⟩, List.chain'_singleton 50⟩

/-- C3 (counterexample): for the all-zero four-bin buffer at sample rate 8,
the spectral rolloff is `0`, not `sampleRate / 2 = 4`: the cumulative energy
(`0`) reaches the 85% target (`0`) already at bin 0, so the Nyquist fallback
is never taken for a nonempty buffer. -/
theorem rolloff_zero_ne_nyquist :
    calculateSpectralRolloff (List.replicate 4 0) 8 = 0 ∧
    calculateSpectralRolloff (List.replicate 4 0) 8 ≠ (8 : ℚ) / 2 := by
  have h : calculateSpectralRolloff (List.replicate 4 0) 8 = 0 :=
    calculateSpectralRolloff_replicate_zero 4 (by norm_num) 8
  refine ⟨h, ?_⟩
  rw [h]
  norm_num

/-- C3 (amended): for every all-zero frequency buffer of length at least 1
and any sample rate, the spectral centroid is 0, the roughness is 0, and the
spectral rolloff is 0 (the frequency of bin 0) — the `sampleRate / 2`
fallback occurs only for the empty buffer. -/
theorem zero_buffer_features (n : ℕ) (sr : ℚ) (hn : 1 ≤ n) :
    calculateSpectralCentroid (List.replicate n 0) sr = 0 ∧
    calculateSpectralRolloff (List.replicate n 0) sr = 0 ∧
    calculateRoughness (List.replicate n 0) = 0 :=
  ⟨calculateSpectralCentroid_replicate_zero n sr,
   calculateSpectralRolloff_replicate_zero n hn sr,
   calculateRoughness_replicate_zero n⟩

theorem zero_buffer_features_witness :
    1 ≤ 3 ∧
    (calculateSpectralCentroid (List.replicate 3 0) 44100 = 0 ∧
     calculateSpectralRolloff (List.replicate 3 0) 44100 = 0 ∧
     calculateRoughness (List.replicate 3 0) = 0) :=
  ⟨by decide, zero_buffer_features 3 44100 (by decide)⟩

/-- C9 (counterexample): the buffer `[200, 50]` strictly alternates around
128, yet its zero-crossing rate is `1/2`, not `1.0`: the single crossing is
divided by the buffer length 2, so the maximum over such buffers is
`(L-1)/L`, never `1`. -/
theorem zcr_alternating_ne_one :
    List.Chain' altAround128 [200, 50] ∧
    calculateZeroCrossingRate [200, 50] ≠ 1 := by
  refine ⟨alt_200_50, ?_⟩
  have hcc : countCrossings [200, 50] = 1 := by decide
  have hval : calculateZeroCrossingRate [200, 50] = 1 / 2 := by
    unfold calculateZeroCrossingRate
    rw [if_neg (show ¬(([200, 50] : List ℕ).length < 2) by decide), hcc]
    norm_num
  rw [hval]
  norm_num

/-- C9 (amended): for every waveform buffer of length `L ≥ 2` whose samples
strictly alternate above and below the center value 128 on every successive
pair, the zero-crossing rate equals `(L - 1) / L` (every successive pair is
counted as a crossing, and the count is normalized by the buffer length). -/
theorem zcr_alternating (td : List ℕ) (hlen : 2 ≤ td.length)
    (halt : List.Chain' altAround128 td) :
    calculateZeroCrossingRate td = ((td.length : ℚ) - 1) / (td.length : ℚ) := by
  obtain ⟨a, rest, rfl⟩ : ∃ a rest, td = a :: rest := by
    cases td with
    | nil => simp at hlen
    | cons a rest => exact ⟨a, rest, rfl⟩
  have hc := countCrossings_chain a rest halt
  have hnot : ¬((a :: rest).length < 2) := by omega
  unfold calculateZeroCrossingRate
  rw [if_neg hnot, hc]
  have hlen1 : ((a :: rest).length : ℚ) = (rest.length : ℚ) + 1 := by
    push_cast [List.length_cons]
    ring
  rw [hlen1]
  ring

theorem zcr_alternating_witness :
    2 ≤ ([200, 50] : List ℕ).length ∧ List.Chain' altAround128 [200, 50] ∧
    calculateZeroCrossingRate [200, 50] =
      ((([200, 50] : List ℕ).length : ℚ) - 1) / (([200, 50] : List ℕ).length : ℚ) :=
  ⟨by decide, alt_200_50, zcr_alternating [200, 50] (by decide) alt_200_50⟩

/-- A JS `Map<string, number>` in insertion order, as used for per-source
transition counts and for the quorum chord counts. -/
abbrev CountMap := List (String × ℕ)

/-- `m.set(c, (m.get(c) || 0) + 1)`: increment the count of `c`, keeping its
position if present, appending `(c, 1)` otherwise. -/
def bump : CountMap → String → CountMap
  | [], c => [(c, 1)]
  | e :: rest, c => if e.1 = c then (e.1, e.2 + 1) :: rest else e :: bump rest c

/-- `Map.get(c)`, with 0 for a missing key. -/
def lookupCount : CountMap → String → ℕ
  | [], _ => 0
  | e :: rest, c => if e.1 = c then e.2 else lookupCount rest c

/-- The transition table `chordTransitions : Map<string, Map<string, number>>`. -/
abbrev TransitionModel := List (String × CountMap)

/-- The update `transitions.set(prevChord, new Map())` (if absent) followed by
`fromChord.set(currChord, (fromChord.get(currChord) || 0) + 1)`. -/
def bumpOuter : TransitionModel → String → String → TransitionModel
  | [], src, dst => [(src, bump [] dst)]
  | e :: rest, src, dst =>
    if e.1 = src then (e.1, bump e.2 dst) :: rest
    else e :: bumpOuter rest src dst

/-- Total outgoing count of one source chord (`fromTotal` in the code). -/
def innerTotal (l : CountMap) : ℕ := (l.map Prod.snd).sum

/-- Maximum outgoing count of one source chord (`fromMax` in the code,
a `Math.max` fold starting at 0). -/
def innerMax (l : CountMap) : ℕ := (l.map Prod.snd).foldl Nat.max 0

/-- Sum over sources of total outgoing counts (`totalTransitions`). -/
def totalSum (tm : TransitionModel) : ℕ := (tm.map (fun e => innerTotal e.2)).sum

/-- Sum over sources of maximum outgoing counts (`maxTransitionCount`). -/
def maxSum (tm : TransitionModel) : ℕ := (tm.map (fun e => innerMax e.2)).sum

/-- The predictability loop of `updateData`: accumulate
`(totalTransitions, maxTransitionCount)` over the transition table, then
return `maxTransitionCount / totalTransitions` when the total is positive
and 0 otherwise. -/
def computePredictability (tm : TransitionModel) : ℚ :=
  let acc := tm.foldl
    (fun (a : ℕ × ℕ) e =>
      let inner := e.2.foldl (fun (b : ℕ × ℕ) t => (b.1 + t.2, Nat.max b.2 t.2)) (0, 0)
      (a.1 + inner.1, a.2 + inner.2))
    (0, 0)
  if 0 < acc.1 then (acc.2 : ℚ) / (acc.1 : ℚ) else 0

/-- The chord-transition block of `updateData` (lines 1807-1842), as a
function of the previous and current raw chord labels: a no-op unless
`prevChord !== "---" && currChord !== "---" && prevChord !== currChord`,
otherwise bump `model[prev][curr]` and recompute predictability. -/
def recordTransition (tm : TransitionModel) (pred : ℚ) (src dst : String) :
    TransitionModel × ℚ :=
  if src ≠ "---" ∧ dst ≠ "---" ∧ src ≠ dst then
    let tm2 := bumpOuter tm src dst
    (tm2, computePredictability tm2)
  else (tm, pred)

theorem foldl_nat_max_init (l : List ℕ) :
    ∀ y, l.foldl Nat.max y = Nat.max y (l.foldl Nat.max 0) := by
  induction l with
  | nil => intro y; simp
  | cons a rest ih =>
    intro y
    simp only [List.foldl_cons]
    rw [ih (Nat.max y a), ih (Nat.max 0 a)]
    rw [show Nat.max 0 a = a from Nat.max_eq_right (Nat.zero_le a)]
    exact Nat.max_assoc y a (List.foldl Nat.max 0 rest)

theorem innerMax_cons (t : String × ℕ) (rest : CountMap) :
    innerMax (t :: rest) = Nat.max t.2 (innerMax rest) := by
  simp only [innerMax, List.map_cons, List.foldl_cons, Nat.zero_max]
  exact foldl_nat_max_init (rest.map Prod.snd) t.2

theorem innerTotal_cons (t : String × ℕ) (rest : CountMap) :
    innerTotal (t :: rest) = t.2 + innerTotal rest := by
  simp [innerTotal]

theorem inner_fold_eq (l : CountMap) :
    ∀ x y : ℕ, l.foldl (fun (b : ℕ × ℕ) t => (b.1 + t.2, Nat.max b.2 t.2)) (x, y) =
      (x + innerTotal l, Nat.max y (innerMax l)) := by
  induction l with
  | nil => intro x y; simp [innerTotal, innerMax]
  | cons t rest ih =>
    intro x y
    rw [List.foldl_cons, ih (x + t.2) (Nat.max y t.2), innerMax_cons, innerTotal_cons]
    simp only [Prod.mk.injEq]
    exact ⟨by omega, Nat.max_assoc y t.2 (innerMax rest)⟩

theorem outer_fold_eq (tm : TransitionModel) :
    ∀ x y : ℕ, tm.foldl
      (fun (a : ℕ × ℕ) e =>
        let inner := e.2.foldl (fun (b : ℕ × ℕ) t => (b.1 + t.2, Nat.max b.2 t.2)) (0, 0)
        (a.1 + inner.1, a.2 + inner.2))
      (x, y) = (x + totalSum tm, y + maxSum tm) := by
  induction tm with
  | nil => intro x y; simp [totalSum, maxSum]
  | cons e rest ih =>
    intro x y
    rw [List.foldl_cons]
    simp only [inner_fold_eq e.2 0 0, Nat.zero_add, Nat.zero_max]
    rw [ih (x + innerTotal e.2) (y + innerMax e.2)]
    simp only [totalSum, maxSum, List.map_cons, List.sum_cons, Prod.mk.injEq]
    exact ⟨by omega, by omega⟩

theorem computePredictability_eq (tm : TransitionModel) :
    computePredictability tm =
      if 0 < totalSum tm then (maxSum tm : ℚ) / (totalSum tm : ℚ) else 0 := by
  unfold computePredictability
  simp only [outer_fold_eq tm 0 0, Nat.zero_add]

theorem innerTotal_bump (l : CountMap) (c : String) :
    innerTotal (bump l c) = innerTotal l + 1 := by
  induction l with
  | nil => simp [bump, innerTotal]
  | cons e rest ih =>
    by_cases h : e.1 = c
    · rw [bump, if_pos h, innerTotal_cons, innerTotal_cons]
      omega
    · rw [bump, if_neg h, innerTotal_cons, innerTotal_cons, ih]
      omega

theorem totalSum_bumpOuter (tm : TransitionModel) (src dst : String) :
    totalSum (bumpOuter tm src dst) = totalSum tm + 1 := by
  induction tm with
  | nil => simp [bumpOuter, totalSum, innerTotal_bump, innerTotal, bump]
  | cons e rest ih =>
    by_cases h : e.1 = src
    · rw [bumpOuter, if_pos h]
      simp only [totalSum, List.map_cons, List.sum_cons, innerTotal_bump]
      omega
    · rw [bumpOuter, if_neg h]
      simp only [totalSum, List.map_cons, List.sum_cons]
      have := ih
      simp only [totalSum] at this
      omega

/-- C6: after every transition-model update (a recorded pair passing the
guard), the stored predictability equals the sum over source chords of the
maximum outgoing transition count divided by the sum of all outgoing counts;
and concretely, recording A→B, A→B, A→C from an empty model yields
predictability 2/3. -/
theorem predictability_is_max_over_total :
    (∀ (tm : TransitionModel) (p : ℚ) (src dst : String),
      src ≠ "---" → dst ≠ "---" → src ≠ dst →
        (recordTransition tm p src dst).2 =
          ((maxSum (bumpOuter tm src dst) : ℚ) / (totalSum (bumpOuter tm src dst) : ℚ))) ∧
    (let r1 := recordTransition [] 0 "A" "B"
     let r2 := recordTransition r1.1 r1.2 "A" "B"
     let r3 := recordTransition r2.1 r2.2 "A" "C"
     r3.2 = 2 / 3) := by
  have hgen : ∀ (tm : TransitionModel) (p : ℚ) (src dst : String),
      src ≠ "---" → dst ≠ "---" → src ≠ dst →
        (recordTransition tm p src dst).2 =
          ((maxSum (bumpOuter tm src dst) : ℚ) / (totalSum (bumpOuter tm src dst) : ℚ)) := by
    intro tm p src dst h1 h2 h3
    rw [recordTransition, if_pos ⟨h1, h2, h3⟩]
    simp only
    rw [computePredictability_eq]
    rw [if_pos (show 0 < totalSum (bumpOuter tm src dst) by
      rw [totalSum_bumpOuter]; omega)]
  refine ⟨hgen, ?_⟩
  have e1 : (recordTransition [] 0 "A" "B").1 = bumpOuter [] "A" "B" := by
    rw [recordTransition, if_pos (by refine ⟨?_, ?_, ?_⟩ <;> decide)]
  have e2 : (recordTransition (bumpOuter [] "A" "B")
      (recordTransition [] 0 "A" "B").2 "A" "B").1 =
      bumpOuter (bumpOuter [] "A" "B") "A" "B" := by
    rw [recordTransition, if_pos (by refine ⟨?_, ?_, ?_⟩ <;> decide)]
  simp only [e1, e2]
  rw [hgen _ _ "A" "C" (by decide) (by decide) (by decide)]
  have hbb : bumpOuter (bumpOuter (bumpOuter [] "A" "B") "A" "B") "A" "C" =
      [("A", [("B", 2), ("C", 1)])] := by decide
  rw [hbb]
  have hmax : maxSum [("A", [("B", 2), ("C", 1)])] = 2 := by decide
  have htot : totalSum [("A", [("B", 2), ("C", 1)])] = 3 := by decide
  rw [hmax, htot]
  norm_num

theorem predictability_is_max_over_total_witness :
    ("A" : String) ≠ "---" ∧ ("B" : String) ≠ "---" ∧ ("A" : String) ≠ "B" ∧
    (recordTransition [] 0 "A" "B").2 =
      ((maxSum (bumpOuter [] "A" "B") : ℚ) / (totalSum (bumpOuter [] "A" "B") : ℚ)) :=
  ⟨by decide, by decide, by decide,
   predictability_is_max_over_total.1 [] 0 "A" "B" (by decide) (by decide) (by decide)⟩

/-- C7: recording a chord pair in which the labels are equal, or either label
is the "---" (undetected) sentinel, leaves the transition model and the
predictability value unchanged. -/
theorem recordTransition_noop (tm : TransitionModel) (p : ℚ) (src dst : String)
    (h : src = dst ∨ src = "---" ∨ dst = "---") :
    recordTransition tm p src dst = (tm, p) := by
  rw [recordTransition, if_neg]
  rintro ⟨h1, h2, h3⟩
  rcases h with h | h | h
  · exact h3 h
  · exact h1 h
  · exact h2 h

theorem recordTransition_noop_witness :
    (("A" : String) = "A" ∨ ("A" : String) = "---" ∨ ("A" : String) = "---") ∧
    recordTransition [("C", [("G", 1)])] (1 / 2) "A" "A" = ([("C", [("G", 1)])], 1 / 2) :=
  ⟨Or.inl rfl, recordTransition_noop [("C", [("G", 1)])] (1 / 2) "A" "A" (Or.inl rfl)⟩

/-- One entry of the module-level `chordHistory` array:
`{ chord, note, timestamp }` with a `Date.now()` millisecond timestamp. -/
structure ChordObs where
  chord : String
  note : String
  timestamp : ℤ
deriving DecidableEq

/-- Placeholder entry for (unreachable) out-of-bounds array reads. -/
def obsDefault : ChordObs := { chord := "---", note := "---", timestamp := 0 }

/-- `chordHistory.push({chord, note, timestamp: now})` followed by
`chordHistory = chordHistory.filter((h) => now - h.timestamp < 2000)`. -/
def pruneChordHist (hist : List ChordObs) (chord note : String) (now : ℤ) :
    List ChordObs :=
  (hist ++ [({ chord := chord, note := note, timestamp := now } : ChordObs)]).filter
    (fun h => decide (now - h.timestamp < 2000))

/-- The `chordCounts` map of the quorum scan, built by iterating the recent
window in order (`Map` keys appear in first-occurrence order). -/
def buildCounts (l : List String) : CountMap := l.foldl bump []

/-- Number of occurrences of the label `c` in the window. -/
def countStr (l : List String) (c : String) : ℕ := (l.filter (fun x => x = c)).length

/-- Occurrences of chord label `c` among the recent observations. -/
def countLabel (l : List ChordObs) (c : String) : ℕ :=
  countStr (l.map (fun h => h.chord)) c

/-- One step of the quorum loop: `if (count > maxCount && count > 2)` replace
the candidate (the note is looked up from the window by `g`). -/
def quorumStep (g : String → String) (acc : String × String × ℕ) (e : String × ℕ) :
    String × String × ℕ :=
  if acc.2.2 < e.2 ∧ 2 < e.2 then (e.1, g e.1, e.2) else acc

/-- The stable-chord quorum scan of `updateData` (lines 1844-1859): count the
labels of the 800ms window, then pick the first label whose count strictly
exceeds both the running maximum and 2; its note comes from
`recentChords.find((h) => h.chord === chordName)`. -/
def quorumSelect (recent : List ChordObs) : String × String :=
  let counts := buildCounts (recent.map (fun h => h.chord))
  let noteOf := fun c => (((recent.find? (fun h => h.chord == c)).map
    (fun h => h.note)).getD "---")
  let r := counts.foldl (quorumStep noteOf) ("---", "---", 0)
  (r.1, r.2.1)

/-- `detectKey` (lines 1459-1481): with fewer than 10 history entries return
"---"; otherwise tally non-"---" root notes and return the first most
frequent one (strict-majority scan over the tally map). -/
def detectKey (hist : List ChordObs) : String :=
  if hist.length < 10 then "---"
  else
    let noteCounts := hist.foldl
      (fun m h => if h.note ≠ "---" then bump m h.note else m) []
    (noteCounts.foldl (fun acc e => if acc.2 < e.2 then (e.1, e.2) else acc)
      ("---", 0)).1

def NOTE_NAMES : List String :=
  ["C", "C#", "D", "D#", "E", "F"] ++ ["F#", "G", "G#", "A", "A#", "B"]

def ROMAN_NUMERALS : List String :=
  ["I", "♭II", "II", "♭III", "III", "IV", "♭V", "V", "♭VI", "VI", "♭VII", "VII"]

/-- The regex match `chord.match(/^[A-G]#?/)?.[0] || ""`. -/
def parseRoot (chord : String) : String :=
  match chord.toList with
  | [] => ""
  | c :: rest =>
    if 'A' ≤ c ∧ c ≤ 'G' then
      match rest with
      | '#' :: _ => String.mk [c, '#']
      | _ => String.mk [c]
    else ""

/-- Substring occurrence on character lists (JS `String.prototype.includes`). -/
def listInfix (sub : List Char) : List Char → Bool
  | [] => sub.isEmpty
  | c :: rest => sub.isPrefixOf (c :: rest) || listInfix sub rest

/-- JS `s.includes(sub)`. -/
def strIncludes (s sub : String) : Bool := listInfix sub.toList s.toList

/-- `getChordDegree` (lines 1483-1506): map the stable chord's root to a Roman
numeral relative to the key; minor chords (containing "m" but not "maj") are
lower-cased except on the tonic. The JS `indexOf === -1` check appears here
as a bounds check, since `List.indexOf` returns the length when absent. -/
def getChordDegree (chord key : String) : String :=
  if chord = "---" ∨ key = "---" then "---"
  else
    let rootNote := parseRoot chord
    if rootNote = "" then "---"
    else
      let keyIndex := NOTE_NAMES.indexOf key
      let chordIndex := NOTE_NAMES.indexOf rootNote
      if NOTE_NAMES.length ≤ keyIndex ∨ NOTE_NAMES.length ≤ chordIndex then "---"
      else
        let degree := (chordIndex + 12 - keyIndex) % 12
        let isMinor := strIncludes chord "m" && ! strIncludes chord "maj"
        let numeral := ROMAN_NUMERALS.getD degree ""
        if isMinor && degree != 0 then numeral.toLower else numeral

/-- `rhythmMetrics` snapshot. -/
structure RhythmMetrics where
  tempo : ℚ
  beatStrength : ℚ
  syncopation : ℚ
deriving DecidableEq

/-- A live peak event ("dynamic particle").  The derived display fields
(`id`, `name`, `color`, jittered `position`) do not affect the lifecycle and
are omitted; `freqRange` is kept as its two endpoints. -/
structure Particle where
  freqLo : ℚ
  freqHi : ℚ
  createdAt : ℤ
  lastActive : ℤ
  isActive : Bool
deriving DecidableEq

/-- One recorded sample of `analysisHistory`. -/
structure HistorySample where
  time : ℚ
  spectralCentroid : ℚ
  spectralRolloff : ℚ
  roughness : ℚ
  zeroCrossingRate : ℚ
  chord : String
  chordDegree : String
  tempo : ℚ
  beatStrength : ℚ
  instrumentEnergies : List (String × ℚ)
deriving DecidableEq

/-- The engine-relevant slice of the zustand store, plus the module-level
`chordHistory` array (`chordHist`). -/
structure EngineState where
  currentFileName : Option String
  isPlaying : Bool
  currentLyrics : String
  lyricsData : List String
  currentTime : ℚ
  duration : ℚ
  currentChord : String
  currentNote : String
  songKey : String
  chordDegree : String
  rhythmMetrics : RhythmMetrics
  chordTransitions : TransitionModel
  predictability : ℚ
  dynamicParticles : List Particle
  analysisHistory : List HistorySample
  chordHist : List ChordObs

/-- The transition block of `updateData` (lines 1807-1842) applied to the
already-pruned history: read the last two raw entries and feed them to the
guarded transition recorder. -/
def transStep (s : EngineState) (hist1 : List ChordObs) : EngineState :=
  if 1 < hist1.length then
    { s with
      chordTransitions := (recordTransition s.chordTransitions s.predictability
        (hist1.getD (hist1.length - 2) obsDefault).chord
        (hist1.getD (hist1.length - 1) obsDefault).chord).1,
      predictability := (recordTransition s.chordTransitions s.predictability
        (hist1.getD (hist1.length - 2) obsDefault).chord
        (hist1.getD (hist1.length - 1) obsDefault).chord).2 }
  else s

/-- The stable-chord block of `updateData` (lines 1844-1872): run the quorum
scan on the 800ms window; if a winner exists (or no stable chord was ever
set), store it together with the freshly computed key and scale degree. -/
def stableStep (s : EngineState) (hist1 : List ChordObs) (now : ℤ) : EngineState :=
  if (quorumSelect (hist1.filter (fun h => decide (now - h.timestamp < 800)))).1 ≠ "---"
      ∨ s.currentChord = "---" then
    { s with
      currentChord :=
        (quorumSelect (hist1.filter (fun h => decide (now - h.timestamp < 800)))).1,
      currentNote :=
        (quorumSelect (hist1.filter (fun h => decide (now - h.timestamp < 800)))).2,
      songKey := detectKey hist1,
      chordDegree := getChordDegree
        (quorumSelect (hist1.filter (fun h => decide (now - h.timestamp < 800)))).1
        (detectKey hist1) }
  else s

/-- One frame of the chord pipeline of `updateData` (lines 1801-1872), given
the chord/root detected from this frame's spectrum: push and prune the
history, update the transition model from the last two raw entries, then run
the quorum stabilizer. -/
def chordFrameStep (s : EngineState) (chord note : String) (now : ℤ) : EngineState :=
  stableStep
    (transStep { s with chordHist := pruneChordHist s.chordHist chord note now }
      (pruneChordHist s.chordHist chord note now))
    (pruneChordHist s.chordHist chord note now) now

/-- The 800ms quorum window examined by `chordFrameStep`. -/
def recentWindow (s : EngineState) (chord note : String) (now : ℤ) : List ChordObs :=
  (pruneChordHist s.chordHist chord note now).filter
    (fun h => decide (now - h.timestamp < 800))

theorem countStr_cons (a : String) (l : List String) (c : String) :
    countStr (a :: l) c = (if a = c then 1 else 0) + countStr l c := by
  by_cases h : a = c
  · simp [countStr, List.filter_cons, h]
    omega
  · simp [countStr, List.filter_cons, h]

theorem mem_of_countStr_pos {l : List String} {c : String} (h : 0 < countStr l c) :
    c ∈ l := by
  induction l with
  | nil => simp [countStr] at h
  | cons a rest ih =>
    rw [countStr_cons] at h
    by_cases hac : a = c
    · exact hac ▸ List.mem_cons_self a rest
    · rw [if_neg hac] at h
      exact List.mem_cons_of_mem a (ih (by omega))

theorem lookup_bump_self (m : CountMap) (c : String) :
    lookupCount (bump m c) c = lookupCount m c + 1 := by
  induction m with
  | nil => simp [bump, lookupCount]
  | cons e rest ih =>
    by_cases h : e.1 = c
    · rw [bump, if_pos h, lookupCount, if_pos h, lookupCount, if_pos h]
    · rw [bump, if_neg h, lookupCount, if_neg h, lookupCount, if_neg h, ih]

theorem lookup_bump_other (m : CountMap) (c d : String) (hdc : d ≠ c) :
    lookupCount (bump m c) d = lookupCount m d := by
  induction m with
  | nil => simp [bump, lookupCount, Ne.symm hdc]
  | cons e rest ih =>
    by_cases he : e.1 = c
    · rw [bump, if_pos he]
      by_cases h2 : e.1 = d
      · exact absurd (h2.symm.trans he) hdc
      · simp only [lookupCount]
        rw [if_neg h2, if_neg h2]
    · rw [bump, if_neg he]
      simp only [lookupCount]
      by_cases h2 : e.1 = d
      · rw [if_pos h2, if_pos h2]
      · rw [if_neg h2, if_neg h2, ih]

theorem lookup_foldl_bump (l : List String) :
    ∀ (m : CountMap) (c : String),
      lookupCount (l.foldl bump m) c = lookupCount m c + countStr l c := by
  induction l with
  | nil => intro m c; simp [countStr]
  | cons a rest ih =>
    intro m c
    rw [List.foldl_cons, ih (bump m a) c, countStr_cons]
    by_cases h : a = c
    · rw [if_pos h, h, lookup_bump_self]
      omega
    · rw [if_neg h, lookup_bump_other m a c (fun hx => h hx.symm)]
      omega

theorem lookup_buildCounts (l : List String) (c : String) :
    lookupCount (buildCounts l) c = countStr l c := by
  rw [buildCounts, lookup_foldl_bump]
  simp [lookupCount]

theorem mem_keys_bump {m : CountMap} {c d : String}
    (h : d ∈ (bump m c).map Prod.fst) : d ∈ m.map Prod.fst ∨ d = c := by
  induction m with
  | nil =>
    rw [bump] at h
    simp at h
    exact Or.inr h
  | cons e rest ih =>
    by_cases he : e.1 = c
    · rw [bump, if_pos he] at h
      simp only [List.map_cons, List.mem_cons] at h ⊢
      rcases h with h | h
      · exact Or.inl (Or.inl h)
      · exact Or.inl (Or.inr h)
    · rw [bump, if_neg he] at h
      simp only [List.map_cons, List.mem_cons] at h ⊢
      rcases h with h | h
      · exact Or.inl (Or.inl h)
      · rcases ih h with h2 | h2
        · exact Or.inl (Or.inr h2)
        · exact Or.inr h2

theorem nodup_keys_bump {m : CountMap} (c : String)
    (h : (m.map Prod.fst).Nodup) : ((bump m c).map Prod.fst).Nodup := by
  induction m with
  | nil => simp [bump]
  | cons e rest ih =>
    simp only [List.map_cons, List.nodup_cons] at h
    by_cases he : e.1 = c
    · rw [bump, if_pos he]
      simp only [List.map_cons, List.nodup_cons]
      exact h
    · rw [bump, if_neg he]
      simp only [List.map_cons, List.nodup_cons]
      refine ⟨?_, ih h.2⟩
      intro hmem
      rcases mem_keys_bump hmem with h2 | h2
      · exact h.1 h2
      · exact he h2

theorem nodup_keys_foldl_bump (l : List String) :
    ∀ m : CountMap, (m.map Prod.fst).Nodup → ((l.foldl bump m).map Prod.fst).Nodup := by
  induction l with
  | nil => intro m h; exact h
  | cons a rest ih =>
    intro m h
    rw [List.foldl_cons]
    exact ih (bump m a) (nodup_keys_bump a h)

theorem nodup_keys_buildCounts (l : List String) :
    ((buildCounts l).map Prod.fst).Nodup :=
  nodup_keys_foldl_bump l [] (by simp)

theorem vals_pos_bump {m : CountMap} (c : String)
    (h : ∀ e ∈ m, 0 < e.2) : ∀ e ∈ bump m c, 0 < e.2 := by
  induction m with
  | nil =>
    intro e he
    rw [bump] at he
    rcases List.mem_cons.mp he with h2 | h2
    · subst h2; simp
    · simp at h2
  | cons x rest ih =>
    intro e he
    by_cases hx : x.1 = c
    · rw [bump, if_pos hx] at he
      rcases List.mem_cons.mp he with h2 | h2
      · subst h2; simp
      · exact h e (List.mem_cons_of_mem x h2)
    · rw [bump, if_neg hx] at he
      rcases List.mem_cons.mp he with h2 | h2
      · subst h2
        exact h _ (List.mem_cons_self _ _)
      · exact ih (fun a ha => h a (List.mem_cons_of_mem x ha)) e h2

theorem vals_pos_foldl_bump (l : List String) :
    ∀ m : CountMap, (∀ e ∈ m, 0 < e.2) → ∀ e ∈ l.foldl bump m, 0 < e.2 := by
  induction l with
  | nil => intro m h; exact h
  | cons a rest ih =>
    intro m h
    rw [List.foldl_cons]
    exact ih (bump m a) (vals_pos_bump a h)

theorem vals_pos_buildCounts (l : List String) : ∀ e ∈ buildCounts l, 0 < e.2 :=
  vals_pos_foldl_bump l [] (by simp)

theorem lookup_of_mem : ∀ {m : CountMap} {k : String} {v : ℕ},
    (m.map Prod.fst).Nodup → (k, v) ∈ m → lookupCount m k = v := by
  intro m
  induction m with
  | nil => intro k v _ h; simp at h
  | cons e rest ih =>
    intro k v hnd hm
    simp only [List.map_cons, List.nodup_cons] at hnd
    rcases List.mem_cons.mp hm with h | h
    · rw [lookupCount, if_pos (by rw [← h])]
      rw [← h]
    · have hk : e.1 ≠ k := by
        intro he
        exact hnd.1 (he ▸ List.mem_map_of_mem Prod.fst h)
      rw [lookupCount, if_neg hk]
      exact ih hnd.2 h

theorem mem_of_lookup_pos : ∀ {m : CountMap} {k : String},
    lookupCount m k ≠ 0 → (k, lookupCount m k) ∈ m := by
  intro m
  induction m with
  | nil => intro k h; simp [lookupCount] at h
  | cons e rest ih =>
    intro k h
    by_cases he : e.1 = k
    · have hv : lookupCount (e :: rest) k = e.2 := by
        rw [lookupCount, if_pos he]
      rw [hv]
      have he2 : (k, e.2) = e := by
        obtain ⟨e1, e2⟩ := e
        simp only at he
        rw [he]
      rw [he2]
      exact List.mem_cons_self e rest
    · have hv : lookupCount (e :: rest) k = lookupCount rest k := by
        rw [lookupCount, if_neg he]
      rw [hv] at h ⊢
      exact List.mem_cons_of_mem e (ih h)

theorem quorum_foldl_stay (g : String → String) (l : CountMap) :
    ∀ acc, (∀ e ∈ l, e.2 ≤ acc.2.2 ∨ e.2 ≤ 2) → l.foldl (quorumStep g) acc = acc := by
  induction l with
  | nil => intro acc _; rfl
  | cons e rest ih =>
    intro acc h
    have he : quorumStep g acc e = acc := by
      rw [quorumStep, if_neg]
      rcases h e (List.mem_cons_self e rest) with h1 | h1
      · rintro ⟨hlt, _⟩; omega
      · rintro ⟨_, hgt⟩; omega
    rw [List.foldl_cons, he]
    exact ih acc (fun a ha => h a (List.mem_cons_of_mem e ha))

theorem quorum_foldl_winner (g : String → String) (l : CountMap) :
    ∀ (acc : String × String × ℕ) (c : String) (n : ℕ),
      (c, n) ∈ l → 2 < n →
      (∀ e ∈ l, e.1 ≠ c → e.2 < n) →
      (∀ e ∈ l, e.1 = c → e.2 = n) →
      acc.2.2 < n →
      (l.foldl (quorumStep g) acc).1 = c := by
  induction l with
  | nil => intro acc c n hmem _ _ _ _; simp at hmem
  | cons e rest ih =>
    intro acc c n hmem h2 hlt heq haccn
    rw [List.foldl_cons]
    by_cases hec : e.1 = c
    · have hen : e.2 = n := heq e (List.mem_cons_self e rest) hec
      have hcond : acc.2.2 < e.2 ∧ 2 < e.2 :=
        ⟨by rw [hen]; exact haccn, by rw [hen]; exact h2⟩
      rw [quorumStep, if_pos hcond]
      have hstay : ∀ a ∈ rest, a.2 ≤ (e.1, g e.1, e.2).2.2 ∨ a.2 ≤ 2 := by
        intro a ha
        left
        show a.2 ≤ e.2
        by_cases hac : a.1 = c
        · have h3 := heq a (List.mem_cons_of_mem e ha) hac
          omega
        · have h3 := hlt a (List.mem_cons_of_mem e ha) hac
          omega
      rw [quorum_foldl_stay g rest _ hstay]
      exact hec
    · have hmem2 : (c, n) ∈ rest := by
        rcases List.mem_cons.mp hmem with h | h
        · exact absurd (congrArg Prod.fst h.symm) hec
        · exact h
      have hacc2 : (quorumStep g acc e).2.2 < n := by
        rw [quorumStep]
        split
        · show e.2 < n
          exact hlt e (List.mem_cons_self e rest) hec
        · exact haccn
      exact ih (quorumStep g acc e) c n hmem2 h2
        (fun a ha hac => hlt a (List.mem_cons_of_mem e ha) hac)
        (fun a ha hac => heq a (List.mem_cons_of_mem e ha) hac)
        hacc2

theorem quorumSelect_winner (recent : List ChordObs) (c : String)
    (hgt : 2 < countLabel recent c)
    (hmax : ∀ d ∈ recent.map (fun h => h.chord), d ≠ c →
      countLabel recent d < countLabel recent c) :
    (quorumSelect recent).1 = c := by
  unfold quorumSelect
  simp only
  set l := recent.map (fun h => h.chord) with hl
  have hn : lookupCount (buildCounts l) c = countLabel recent c := by
    rw [lookup_buildCounts]
    rfl
  have hmem : (c, countLabel recent c) ∈ buildCounts l := by
    rw [← hn]
    exact mem_of_lookup_pos (by omega)
  have hval : ∀ e ∈ buildCounts l, e.2 = countLabel recent e.1 := by
    intro e he
    have h1 : lookupCount (buildCounts l) e.1 = e.2 :=
      lookup_of_mem (nodup_keys_buildCounts l) (by
        obtain ⟨e1, e2⟩ := e
        exact he)
    rw [lookup_buildCounts] at h1
    exact h1.symm
  have hkey : ∀ e ∈ buildCounts l, e.1 ∈ l := by
    intro e he
    have hpos := vals_pos_buildCounts l e he
    rw [hval e he] at hpos
    exact mem_of_countStr_pos hpos
  exact quorum_foldl_winner _ (buildCounts l) ("---", "---", 0) c
    (countLabel recent c) hmem hgt
    (fun e he hec => by
      rw [hval e he]
      exact hmax e.1 (hkey e he) hec)
    (fun e he hec => by
      rw [hval e he, hec])
    (by
      show 0 < countLabel recent c
      omega)

theorem quorumSelect_no_quorum (recent : List ChordObs)
    (hle : ∀ d ∈ recent.map (fun h => h.chord), countLabel recent d ≤ 2) :
    (quorumSelect recent).1 = "---" := by
  unfold quorumSelect
  simp only
  rw [quorum_foldl_stay]
  intro e he
  right
  have hval : lookupCount (buildCounts (recent.map (fun h => h.chord))) e.1 = e.2 :=
    lookup_of_mem (nodup_keys_buildCounts _) (by
      obtain ⟨e1, e2⟩ := e
      exact he)
  rw [lookup_buildCounts] at hval
  have hpos := vals_pos_buildCounts _ e he
  have hkey : e.1 ∈ recent.map (fun h => h.chord) :=
    mem_of_countStr_pos (by omega)
  have := hle e.1 hkey
  show e.2 ≤ 2
  have hcl : countStr (recent.map (fun h => h.chord)) e.1 =
      countLabel recent e.1 := rfl
  omega

theorem stableStep_chordTransitions (s : EngineState) (hist1 : List ChordObs) (now : ℤ) :
    (stableStep s hist1 now).chordTransitions = s.chordTransitions := by
  unfold stableStep
  split <;> rfl

theorem stableStep_predictability (s : EngineState) (hist1 : List ChordObs) (now : ℤ) :
    (stableStep s hist1 now).predictability = s.predictability := by
  unfold stableStep
  split <;> rfl

theorem transStep_currentChord (s : EngineState) (hist1 : List ChordObs) :
    (transStep s hist1).currentChord = s.currentChord := by
  unfold transStep
  split <;> rfl

theorem recordTransition_eq_of_not_guard (tm : TransitionModel) (p : ℚ)
    (src dst : String) (h : ¬(src ≠ "---" ∧ dst ≠ "---" ∧ src ≠ dst)) :
    recordTransition tm p src dst = (tm, p) := by
  rw [recordTransition, if_neg h]

theorem pruneChordHist_eq (hist : List ChordObs) (chord note : String) (now : ℤ) :
    pruneChordHist hist chord note now =
      hist.filter (fun h => decide (now - h.timestamp < 2000)) ++
        [({ chord := chord, note := note, timestamp := now } : ChordObs)] := by
  unfold pruneChordHist
  rw [List.filter_append]
  congr 1
  simp

theorem getD_snoc_len (l : List ChordObs) (a d : ChordObs) :
    (l ++ [a]).getD l.length d = a := by
  induction l with
  | nil => rfl
  | cons x rest ih => simp [ih]

theorem pruneChordHist_last (hist : List ChordObs) (chord note : String) (now : ℤ) :
    (pruneChordHist hist chord note now).getD
      ((pruneChordHist hist chord note now).length - 1) obsDefault =
      { chord := chord, note := note, timestamp := now } := by
  rw [pruneChordHist_eq, List.length_append]
  simp only [List.length_singleton, Nat.add_sub_cancel]
  exact getD_snoc_len _ _ _

/-- C2 (amended): the transition model is keyed to the raw detected chord
sequence, not the stabilized chord.  If the pruned chord history has at most
one entry, or its second-to-last raw entry carries the same chord as this
frame's detection, or either of those two labels is "---", then the frame
modifies no transition count and leaves predictability unchanged. -/
theorem transitions_unchanged_on_raw_repeat (s : EngineState)
    (chord note : String) (now : ℤ)
    (h : (pruneChordHist s.chordHist chord note now).length ≤ 1 ∨
      ((pruneChordHist s.chordHist chord note now).getD
        ((pruneChordHist s.chordHist chord note now).length - 2) obsDefault).chord
        = chord ∨
      chord = "---" ∨
      ((pruneChordHist s.chordHist chord note now).getD
        ((pruneChordHist s.chordHist chord note now).length - 2) obsDefault).chord
        = "---") :
    (chordFrameStep s chord note now).chordTransitions = s.chordTransitions ∧
    (chordFrameStep s chord note now).predictability = s.predictability := by
  unfold chordFrameStep
  rw [stableStep_chordTransitions, stableStep_predictability]
  set hist1 := pruneChordHist s.chordHist chord note now with hh
  by_cases hlen : 1 < hist1.length
  · have hcurr : (hist1.getD (hist1.length - 1) obsDefault).chord = chord := by
      rw [hh, pruneChordHist_last]
    have hguard : ¬((hist1.getD (hist1.length - 2) obsDefault).chord ≠ "---" ∧
        (hist1.getD (hist1.length - 1) obsDefault).chord ≠ "---" ∧
        (hist1.getD (hist1.length - 2) obsDefault).chord ≠
          (hist1.getD (hist1.length - 1) obsDefault).chord) := by
      rintro ⟨g1, g2, g3⟩
      rcases h with h | h | h | h
      · omega
      · exact g3 (by rw [hcurr, h])
      · exact g2 (by rw [hcurr, h])
      · exact g1 h
    rw [transStep, if_pos hlen,
      recordTransition_eq_of_not_guard _ _ _ _ hguard]
    exact ⟨rfl, rfl⟩
  · rw [transStep, if_neg hlen]
    exact ⟨rfl, rfl⟩

theorem transitions_unchanged_on_raw_repeat_witness :
    ((pruneChordHist [({ chord := "C", note := "C", timestamp := 900 } : ChordObs)]
        "C" "C" 1000).length ≤ 1 ∨
      ((pruneChordHist [({ chord := "C", note := "C", timestamp := 900 } : ChordObs)]
          "C" "C" 1000).getD
        ((pruneChordHist [({ chord := "C", note := "C", timestamp := 900 } : ChordObs)]
          "C" "C" 1000).length - 2) obsDefault).chord = "C" ∨
      ("C" : String) = "---" ∨
      ((pruneChordHist [({ chord := "C", note := "C", timestamp := 900 } : ChordObs)]
          "C" "C" 1000).getD
        ((pruneChordHist [({ chord := "C", note := "C", timestamp := 900 } : ChordObs)]
          "C" "C" 1000).length - 2) obsDefault).chord = "---") ∧
    (chordFrameStep
      { currentFileName := none, isPlaying := true, currentLyrics := "",
        lyricsData := [], currentTime := 0, duration := 0, currentChord := "---",
        currentNote := "---", songKey := "---", chordDegree := "---",
        rhythmMetrics := { tempo := 120, beatStrength := 0, syncopation := 0 },
        chordTransitions := [], predictability := 0, dynamicParticles := [],
        analysisHistory := [],
        chordHist := [{ chord := "C", note := "C", timestamp := 900 }] }
      "C" "C" 1000).chordTransitions = [] ∧
    (chordFrameStep
      { currentFileName := none, isPlaying := true, currentLyrics := "",
        lyricsData := [], currentTime := 0, duration := 0, currentChord := "---",
        currentNote := "---", songKey := "---", chordDegree := "---",
        rhythmMetrics := { tempo := 120, beatStrength := 0, syncopation := 0 },
        chordTransitions := [], predictability := 0, dynamicParticles := [],
        analysisHistory := [],
        chordHist := [{ chord := "C", note := "C", timestamp := 900 }] }
      "C" "C" 1000).predictability = 0 :=
  ⟨Or.inr (Or.inl (by decide)),
   (transitions_unchanged_on_raw_repeat _ "C" "C" 1000
     (Or.inr (Or.inl (by decide)))).1,
   (transitions_unchanged_on_raw_repeat _ "C" "C" 1000
     (Or.inr (Or.inl (by decide)))).2⟩

theorem chordFrameStep_predictability_eq (s : EngineState) (chord note : String)
    (now : ℤ) :
    (chordFrameStep s chord note now).predictability =
      (transStep { s with chordHist := pruneChordHist s.chordHist chord note now }
        (pruneChordHist s.chordHist chord note now)).predictability := by
  unfold chordFrameStep
  rw [stableStep_predictability]

theorem transStep_predictability_pos (s : EngineState) (hist1 : List ChordObs)
    (hlen : 1 < hist1.length) :
    (transStep s hist1).predictability =
      (recordTransition s.chordTransitions s.predictability
        (hist1.getD (hist1.length - 2) obsDefault).chord
        (hist1.getD (hist1.length - 1) obsDefault).chord).2 := by
  rw [transStep, if_pos hlen]

/-- A store state in which the stabilized chord is "C" (three raw "C"
detections in the quorum window) with an empty transition model. -/
def sC2x : EngineState :=
  { currentFileName := none, isPlaying := true, currentLyrics := "",
    lyricsData := [], currentTime := 0, duration := 0, currentChord := "C",
    currentNote := "C", songKey := "---", chordDegree := "---",
    rhythmMetrics := { tempo := 120, beatStrength := 0, syncopation := 0 },
    chordTransitions := [], predictability := 0, dynamicParticles := [],
    analysisHistory := [],
    chordHist := [{ chord := "C", note := "C", timestamp := 700 },
                  { chord := "C", note := "C", timestamp := 800 },
                  { chord := "C", note := "C", timestamp := 900 }] }

/-- C2 (counterexample): a frame whose raw detection is "G" after three "C"
observations leaves the stabilized chord at "C" (the quorum still selects
"C", 3 > 2 occurrences), yet records the raw transition C→G: the transition
model gains a count and predictability moves from 0 to 1.  So "stabilized
chord unchanged" does not imply "no transition-model update". -/
theorem stable_chord_unchanged_yet_model_updated :
    (chordFrameStep sC2x "G" "G" 1000).currentChord = sC2x.currentChord ∧
    (chordFrameStep sC2x "G" "G" 1000).chordTransitions ≠ sC2x.chordTransitions ∧
    (chordFrameStep sC2x "G" "G" 1000).predictability ≠ sC2x.predictability := by
  refine ⟨by decide, by decide, ?_⟩
  rw [chordFrameStep_predictability_eq,
    transStep_predictability_pos _ _ (by decide)]
  have hprev : ((pruneChordHist sC2x.chordHist "G" "G" 1000).getD
      ((pruneChordHist sC2x.chordHist "G" "G" 1000).length - 2) obsDefault).chord
      = "C" := by decide
  have hcurr : ((pruneChordHist sC2x.chordHist "G" "G" 1000).getD
      ((pruneChordHist sC2x.chordHist "G" "G" 1000).length - 1) obsDefault).chord
      = "G" := by decide
  rw [hprev, hcurr]
  show (recordTransition [] 0 "C" "G").2 ≠ sC2x.predictability
  rw [recordTransition, if_pos (by refine ⟨?_, ?_, ?_⟩ <;> decide)]
  simp only
  rw [show bumpOuter [] "C" "G" = [("C", [("G", 1)])] from by decide]
  rw [computePredictability_eq]
  rw [if_pos (show 0 < totalSum [("C", [("G", 1)])] from by decide)]
  rw [show maxSum [("C", [("G", 1)])] = 1 from by decide,
    show totalSum [("C", [("G", 1)])] = 1 from by decide]
  show (1 : ℚ) / 1 ≠ 0
  norm_num

theorem chordFrameStep_currentChord_none (s : EngineState) (chord note : String)
    (now : ℤ) (h : (quorumSelect (recentWindow s chord note now)).1 = "---") :
    (chordFrameStep s chord note now).currentChord = s.currentChord := by
  unfold recentWindow at h
  unfold chordFrameStep stableStep
  split
  case isTrue hc =>
    show (quorumSelect ((pruneChordHist s.chordHist chord note now).filter
      (fun h => decide (now - h.timestamp < 800)))).1 = s.currentChord
    rw [h]
    rcases hc with hc | hc
    · exact absurd h hc
    · rw [transStep_currentChord] at hc
      exact hc.symm
  case isFalse hc =>
    exact transStep_currentChord _ _

theorem chordFrameStep_currentChord_winner (s : EngineState) (chord note : String)
    (now : ℤ) (h : (quorumSelect (recentWindow s chord note now)).1 ≠ "---") :
    (chordFrameStep s chord note now).currentChord =
      (quorumSelect (recentWindow s chord note now)).1 := by
  unfold recentWindow at h ⊢
  unfold chordFrameStep stableStep
  rw [if_pos (Or.inl h)]

/-- C4 (amended): in the 800ms quorum window, (i) a label whose count exceeds
2 and strictly exceeds every other occurring label's count becomes the new
stable chord; (ii) if no label's count exceeds 2, the quorum yields "---";
(iii) a "---" quorum outcome leaves the stable chord unchanged (it never
displaces a previously stabilized chord); (iv) a non-"---" quorum winner
becomes the stable chord.  The original iff fails for ties and for the "---"
label: the scan keeps the first-encountered label whose count strictly
exceeds the running maximum. -/
theorem quorum_stable_chord_rule :
    (∀ (recent : List ChordObs) (c : String),
      2 < countLabel recent c →
      (∀ d ∈ recent.map (fun h => h.chord), d ≠ c →
        countLabel recent d < countLabel recent c) →
      (quorumSelect recent).1 = c) ∧
    (∀ recent : List ChordObs,
      (∀ d ∈ recent.map (fun h => h.chord), countLabel recent d ≤ 2) →
      (quorumSelect recent).1 = "---") ∧
    (∀ (s : EngineState) (chord note : String) (now : ℤ),
      (quorumSelect (recentWindow s chord note now)).1 = "---" →
      (chordFrameStep s chord note now).currentChord = s.currentChord) ∧
    (∀ (s : EngineState) (chord note : String) (now : ℤ),
      (quorumSelect (recentWindow s chord note now)).1 ≠ "---" →
      (chordFrameStep s chord note now).currentChord =
        (quorumSelect (recentWindow s chord note now)).1) :=
  ⟨quorumSelect_winner, quorumSelect_no_quorum,
   chordFrameStep_currentChord_none, chordFrameStep_currentChord_winner⟩

/-- Quorum window with three "G" observations. -/
def wThreeG : List ChordObs :=
  [{ chord := "G", note := "G", timestamp := 900 },
   { chord := "G", note := "G", timestamp := 950 },
   { chord := "G", note := "G", timestamp := 980 }]

/-- Quorum window with only two "G" observations. -/
def wTwoG : List ChordObs :=
  [{ chord := "G", note := "G", timestamp := 900 },
   { chord := "G", note := "G", timestamp := 950 }]

theorem quorum_stable_chord_rule_witness :
    (2 < countLabel wThreeG "G" ∧ (quorumSelect wThreeG).1 = "G") ∧
    ((∀ d ∈ wTwoG.map (fun h => h.chord), countLabel wTwoG d ≤ 2) ∧
      (quorumSelect wTwoG).1 = "---") :=
  ⟨⟨by decide, quorum_stable_chord_rule.1 wThreeG "G" (by decide) (by decide)⟩,
   ⟨by decide, quorum_stable_chord_rule.2.1 wTwoG (by decide)⟩⟩

/-- A store state whose 800ms window will contain a three-way-tied pair of
labels G and E, with current stable chord "C". -/
def sC4x : EngineState :=
  { currentFileName := none, isPlaying := true, currentLyrics := "",
    lyricsData := [], currentTime := 0, duration := 0, currentChord := "C",
    currentNote := "C", songKey := "---", chordDegree := "---",
    rhythmMetrics := { tempo := 120, beatStrength := 0, syncopation := 0 },
    chordTransitions := [], predictability := 0, dynamicParticles := [],
    analysisHistory := [],
    chordHist := [{ chord := "G", note := "G", timestamp := 850 },
                  { chord := "G", note := "G", timestamp := 900 },
                  { chord := "G", note := "G", timestamp := 950 },
                  { chord := "E", note := "E", timestamp := 960 },
                  { chord := "E", note := "E", timestamp := 970 }] }

/-- C4 (counterexample): with window counts G = 3 and E = 3 (a tie, both
exceeding 2), the label "E" has a count that exceeds 2 and is maximal in the
window, yet the new stable chord is "G" (the first-encountered label), not
"E" — and "G"'s count does not strictly exceed every other count either.
Under either reading of "is the maximum", the claimed iff fails. -/
theorem quorum_tie_breaks_iff :
    countLabel (recentWindow sC4x "E" "E" 1000) "E" = 3 ∧
    countLabel (recentWindow sC4x "E" "E" 1000) "G" = 3 ∧
    (∀ d ∈ (recentWindow sC4x "E" "E" 1000).map (fun h => h.chord),
      countLabel (recentWindow sC4x "E" "E" 1000) d ≤ 3) ∧
    (chordFrameStep sC4x "E" "E" 1000).currentChord = "G" := by
  refine ⟨by decide, by decide, by decide, by decide⟩

/-- The `set({...})` executed by the `canplay` handler of `loadAudioFile`
(lines 2222-2242) when a new file loads successfully.  Only the listed store
fields are written; in particular neither the module-level `chordHistory`
array nor `analysisHistory` is touched. -/
def handleCanPlay (s : EngineState) (fileName : String) : EngineState :=
  { s with
    currentFileName := some fileName,
    isPlaying := false,
    currentLyrics := "♪ Ready to play",
    lyricsData := [],
    songKey := "---",
    chordDegree := "---",
    dynamicParticles := [],
    rhythmMetrics := { tempo := 120, beatStrength := 0, syncopation := 0 },
    chordTransitions := [],
    predictability := 0 }

/-- `seekTo` (lines 2112-2136): reject negative positions, clamp to the
duration (`safeDuration || 0`), and store the clamped playback time.  Only
`currentTime` changes; the analysis history is untouched. -/
def seekTo (s : EngineState) (pos : ℚ) : EngineState :=
  if pos < 0 then s
  else { s with
    currentTime := min (max pos 0) (if 0 < s.duration then s.duration else 0) }

/-- The per-sample payload recorded into `analysisHistory` (everything except
the `time` field, which the recorder sets from the playback clock). -/
structure SampleData where
  spectralCentroid : ℚ
  spectralRolloff : ℚ
  roughness : ℚ
  zeroCrossingRate : ℚ
  chord : String
  chordDegree : String
  tempo : ℚ
  beatStrength : ℚ
  instrumentEnergies : List (String × ℚ)
deriving DecidableEq

/-- Assemble the pushed `analysisHistory` entry. -/
def mkSample (t : ℚ) (d : SampleData) : HistorySample :=
  { time := t, spectralCentroid := d.spectralCentroid,
    spectralRolloff := d.spectralRolloff, roughness := d.roughness,
    zeroCrossingRate := d.zeroCrossingRate, chord := d.chord,
    chordDegree := d.chordDegree, tempo := d.tempo,
    beatStrength := d.beatStrength,
    instrumentEnergies := d.instrumentEnergies }

/-- `analysisHistory.length > 0 ? analysisHistory[len-1].time : -1`. -/
def lastRecordTime (hist : List HistorySample) : ℚ :=
  match hist.getLast? with
  | some h => h.time
  | none => -1

/-- The history recorder of `updateData` (lines 1979-2026): if at least 0.5s
of playback time has passed since the last recorded sample (and the
frequency buffer is nonempty), push a sample; then `shift()` the oldest
entry whenever the buffer exceeds 1000. -/
def recordAnalysisHistory (hist : List HistorySample) (audioTime : ℚ)
    (freqLen : ℕ) (d : SampleData) : List HistorySample :=
  if 1 / 2 ≤ audioTime - lastRecordTime hist ∧ 0 < freqLen then
    if 1000 < (hist ++ [mkSample audioTime d]).length then
      (hist ++ [mkSample audioTime d]).tail
    else hist ++ [mkSample audioTime d]
  else hist

/-- `if (Math.abs(avgFreq - freq) < minDistance)` with `minDistance = 300`:
a detected peak matches a live particle when it lies within 300Hz of the
particle's frequency-range midpoint. -/
def matchesParticle (p : Particle) (f : ℚ) : Bool :=
  decide (|(p.freqLo + p.freqHi) / 2 - f| < 300)

/-- A freshly spawned particle: `freqRange = [max(20, f-100), min(20000, f+100)]`,
`createdAt = lastActive = now`, active. -/
def spawnParticle (f : ℚ) (now : ℤ) : Particle :=
  { freqLo := max 20 (f - 100), freqHi := min 20000 (f + 100),
    createdAt := now, lastActive := now, isActive := true }

/-- `existingParticle.lastActive = currentTime; existingParticle.isActive = true`
applied to the first matching element (JS `Array.prototype.find` returns a
reference into the array, so the mutation is visible in the snapshot). -/
def refreshFirst : List Particle → ℚ → ℤ → List Particle
  | [], _, _ => []
  | p :: rest, f, now =>
    if matchesParticle p f then
      { p with lastActive := now, isActive := true } :: rest
    else p :: refreshFirst rest f now

/-- The peak loop of `updateData` (lines 1881-1946) over the detected peak
frequencies.  `dynamicParticles` is destructured once before the loop, so
matching always searches that snapshot (with in-place refreshes visible);
each spawn calls `set({dynamicParticles: [...dynamicParticles, newParticle]})`
against the same stale snapshot, so only the last spawn of a frame survives —
returned here as the pending `Option Particle`. -/
def peakPass (ps : List Particle) (now : ℤ) (peaks : List ℚ) :
    List Particle × Option Particle :=
  peaks.foldl
    (fun acc f =>
      if acc.1.any (fun p => matchesParticle p f) then
        (refreshFirst acc.1 f now, acc.2)
      else (acc.1, some (spawnParticle f now)))
    (ps, none)

/-- Peak detection of the particle loop: indices `10 ≤ i < N/2` that exceed
the threshold 120 and both neighbours; the peak frequency is
`i * sampleRate / (2 * N)`. -/
def detectPeaks (data : List ℕ) (sr : ℚ) : List ℚ :=
  (List.range data.length).filterMap
    (fun i =>
      if 10 ≤ i ∧ 2 * i < data.length ∧ 120 < data.getD i 0 ∧
          data.getD (i - 1) 0 < data.getD i 0 ∧
          data.getD (i + 1) 0 < data.getD i 0 then
        some ((i : ℚ) * sr / (2 * (data.length : ℚ)))
      else none)

/-- The full per-frame particle pass of `updateData` (lines 1874-1966) while
playing: run the peak loop, then compute the sweep (`isActive := false`
after 300ms, drop after 20000ms) from the pre-spawn snapshot — but commit
the sweep only when it changed the particle count, exactly as the source's
`if (updatedParticles.length !== dynamicParticles.length)` guard does. -/
def updateParticlesFrame (particles : List Particle) (data : List ℕ) (sr : ℚ)
    (now : ℤ) : List Particle :=
  (fun r =>
    (fun swept =>
      if swept.length ≠ r.1.length then swept
      else match r.2 with
        | none => r.1
        | some p => r.1 ++ [p])
    ((r.1.map (fun p =>
        if 300 < now - p.lastActive then { p with isActive := false } else p)).filter
      (fun p => decide (now - p.lastActive < 20000))))
  (peakPass particles now (detectPeaks data sr))

/-- C1 (amended): on a successful file load the `canplay` handler resets the
peak events, the transition model, predictability, the rhythm metrics (to
tempo 120, beatStrength 0, syncopation 0) and the key/degree display fields —
but it does not clear the chord-history window, the analysis-history buffer,
or the stable chord, which all survive into the new track. -/
theorem handleCanPlay_partial_reset (s : EngineState) (f : String) :
    (handleCanPlay s f).dynamicParticles = [] ∧
    (handleCanPlay s f).chordTransitions = [] ∧
    (handleCanPlay s f).predictability = 0 ∧
    (handleCanPlay s f).rhythmMetrics =
      { tempo := 120, beatStrength := 0, syncopation := 0 } ∧
    (handleCanPlay s f).songKey = "---" ∧
    (handleCanPlay s f).chordDegree = "---" ∧
    (handleCanPlay s f).analysisHistory = s.analysisHistory ∧
    (handleCanPlay s f).chordHist = s.chordHist ∧
    (handleCanPlay s f).currentChord = s.currentChord :=
  ⟨rfl, rfl, rfl, rfl, rfl, rfl, rfl, rfl, rfl⟩

/-- A recorded sample left over from a previous track. -/
def hsC1 : HistorySample :=
  { time := 5, spectralCentroid := 880, spectralRolloff := 4000,
    roughness := 12, zeroCrossingRate := 0, chord := "C", chordDegree := "I",
    tempo := 97, beatStrength := 1, instrumentEnergies := [] }

/-- A store state carrying a nonempty chord history and a nonempty
analysis-history buffer from a previous track. -/
def sC1x : EngineState :=
  { currentFileName := some "old.mp3", isPlaying := false, currentLyrics := "",
    lyricsData := [], currentTime := 7, duration := 30, currentChord := "C",
    currentNote := "C", songKey := "C", chordDegree := "I",
    rhythmMetrics := { tempo := 97, beatStrength := 1, syncopation := 0 },
    chordTransitions := [("C", [("G", 2)])], predictability := 1,
    dynamicParticles := [],
    analysisHistory := [hsC1],
    chordHist := [{ chord := "C", note := "C", timestamp := 900 }] }

/-- C1 (counterexample): loading a new file with a nonempty chord history and
a nonempty analysis-history buffer leaves both nonempty — the reset in
`handleCanPlay` never touches them, so the claimed full reset fails. -/
theorem load_reset_keeps_history :
    (handleCanPlay sC1x "new.mp3").analysisHistory ≠ [] ∧
    (handleCanPlay sC1x "new.mp3").chordHist ≠ [] :=
  ⟨by decide, by decide⟩

/-- The 0.5s playback-time invariant on recorded sample times. -/
def gapOK (hist : List HistorySample) : Prop :=
  List.Chain' (fun a b => a.time + 1 / 2 ≤ b.time) hist

theorem record_gate_closed (hist : List HistorySample) (t : ℚ) (n : ℕ)
    (d : SampleData) (h : t - lastRecordTime hist < 1 / 2) :
    recordAnalysisHistory hist t n d = hist := by
  unfold recordAnalysisHistory
  rw [if_neg]
  rintro ⟨h1, _⟩
  linarith

/-- C8: the analysis-history buffer is bounded: (i) a buffer of at most 1000
entries never grows past 1000; (ii) a frame arriving less than 0.5s of
playback time after the last recorded sample leaves the buffer untouched;
(iii) an append to a full buffer of 1000 entries evicts the oldest entry. -/
theorem analysisHistory_bounded :
    (∀ (hist : List HistorySample) (t : ℚ) (n : ℕ) (d : SampleData),
      hist.length ≤ 1000 → (recordAnalysisHistory hist t n d).length ≤ 1000) ∧
    (∀ (hist : List HistorySample) (t : ℚ) (n : ℕ) (d : SampleData),
      t - lastRecordTime hist < 1 / 2 → recordAnalysisHistory hist t n d = hist) ∧
    (∀ (hist : List HistorySample) (t : ℚ) (n : ℕ) (d : SampleData),
      hist.length = 1000 → 1 / 2 ≤ t - lastRecordTime hist → 0 < n →
      recordAnalysisHistory hist t n d = hist.tail ++ [mkSample t d]) := by
  refine ⟨?_, record_gate_closed, ?_⟩
  · intro hist t n d hle
    unfold recordAnalysisHistory
    split
    next hgate =>
      split
      next hlong =>
        simp only [List.length_tail, List.length_append, List.length_singleton]
        omega
      next hshort =>
        simp only [List.length_append, List.length_singleton] at hshort ⊢
        omega
    next hgate => exact hle
  · intro hist t n d hlen hge hn
    unfold recordAnalysisHistory
    rw [if_pos ⟨hge, hn⟩,
      if_pos (by simp only [List.length_append, List.length_singleton]; omega)]
    cases hist with
    | nil => simp at hlen
    | cons a rest => rfl

/-- Reference sample payload for the witnesses. -/
def dW : SampleData :=
  { spectralCentroid := 0, spectralRolloff := 0, roughness := 0,
    zeroCrossingRate := 0, chord := "---", chordDegree := "---",
    tempo := 120, beatStrength := 0, instrumentEnergies := [] }

/-- Reference recorded sample (time 0) for the witnesses. -/
def hsW : HistorySample := mkSample 0 dW

theorem analysisHistory_bounded_witness :
    ([hsW].length ≤ 1000 ∧
      (recordAnalysisHistory [hsW] 1 4 dW).length ≤ 1000) ∧
    ((1 : ℚ) / 4 - lastRecordTime [hsW] < 1 / 2 ∧
      recordAnalysisHistory [hsW] (1 / 4) 4 dW = [hsW]) :=
  ⟨⟨by decide, analysisHistory_bounded.1 [hsW] 1 4 dW (by decide)⟩,
   ⟨by norm_num [lastRecordTime, hsW, mkSample],
    analysisHistory_bounded.2.1 [hsW] (1 / 4) 4 dW
      (by norm_num [lastRecordTime, hsW, mkSample])⟩⟩

/-- C10: the recorded sample times always advance by at least 0.5s: the
empty buffer satisfies the invariant, the recorder preserves it for any
playback time (in particular after a backward seek the gate simply stays
closed until the playback clock again exceeds the last recorded time by
0.5s), the invariant forces strictly increasing times, `seekTo` itself never
touches the buffer, and no sample is recorded while the playback time is
less than 0.5s past the last recorded time. -/
theorem analysisHistory_times_monotone :
    gapOK ([] : List HistorySample) ∧
    (∀ (hist : List HistorySample) (t : ℚ) (n : ℕ) (d : SampleData),
      gapOK hist → gapOK (recordAnalysisHistory hist t n d)) ∧
    (∀ hist : List HistorySample, gapOK hist →
      List.Chain' (fun a b => a.time < b.time) hist) ∧
    (∀ (s : EngineState) (pos : ℚ), (seekTo s pos).analysisHistory = s.analysisHistory) ∧
    (∀ (hist : List HistorySample) (t : ℚ) (n : ℕ) (d : SampleData),
      t < lastRecordTime hist + 1 / 2 → recordAnalysisHistory hist t n d = hist) := by
  refine ⟨List.chain'_nil, ?_, ?_, ?_, ?_⟩
  · intro hist t n d hg
    unfold recordAnalysisHistory
    split
    next hgate =>
      have happ : gapOK (hist ++ [mkSample t d]) := by
        unfold gapOK
        rw [List.chain'_append]
        refine ⟨hg, List.chain'_singleton _, ?_⟩
        intro x hx y hy
        simp only [List.head?_cons, Option.mem_def, Option.some.injEq] at hy
        rw [Option.mem_def] at hx
        have hlast : lastRecordTime hist = x.time := by
          unfold lastRecordTime
          rw [hx]
        have h1 := hgate.1
        rw [hlast] at h1
        rw [← hy]
        show x.time + 1 / 2 ≤ t
        linarith
      split
      next => exact List.Chain'.tail happ
      next => exact happ
    next => exact hg
  · intro hist hg
    exact List.Chain'.imp (fun a b h => by linarith) hg
  · intro s pos
    unfold seekTo
    split <;> rfl
  · intro hist t n d h
    exact record_gate_closed hist t n d (by linarith)

theorem analysisHistory_times_monotone_witness :
    gapOK [hsW] ∧ gapOK (recordAnalysisHistory [hsW] 1 4 dW) :=
  ⟨List.chain'_singleton _,
   analysisHistory_times_monotone.2.1 [hsW] 1 4 dW (List.chain'_singleton _)⟩

/-- A live particle last refreshed 400ms before the current frame. -/
def pC5 : Particle :=
  { freqLo := 500, freqHi := 700, createdAt := 0, lastActive := 600,
    isActive := true }

/-- C5 (code evaluated at the failing input): one live particle went 400ms
(> 300ms) without a matching peak and no peak arrives this frame, yet after
the frame the committed particle set still holds it with `isActive = true` —
the sweep's `isActive := false` marks are computed but discarded because the
sweep is only stored when it also removed a particle
(`updatedParticles.length !== dynamicParticles.length`). -/
theorem stale_particle_stays_active :
    300 < (1000 : ℤ) - pC5.lastActive ∧
    updateParticlesFrame [pC5] (List.replicate 64 0) 44100 1000 = [pC5] ∧
    pC5.isActive = true :=
  ⟨by decide, by decide, by decide⟩
